import Mathlib

/-!
Verification of the Polar HRV data-analysis core: a shallow embedding of the
beat-preprocessing filters, the irregular windowing pipeline and the HRV
estimators (RMSSD, SDNN, pNN50), together with theorems settling the
specification claims about them.

Conventions of the embedding:
* a beat record is a pair (timestamp, value); timestamps are integers in
  nanoseconds since the Unix epoch (so the Unix-epoch sentinel is 0 and the
  two-second threshold is 2000000000), values are RR intervals in
  milliseconds (int64 in the source data);
* pandas dataframes become Lean lists of records; the per-window HRV
  series are indexed by the timestamp column, so `drop(labels=...)`
  becomes removing every row whose timestamp belongs to the dropped
  label set; code that raises on the empty frame (`indices[0]`,
  `iloc[0]`, `pywt.dwt`) returns `Option`, with `none` for the raise;
* IEEE floats carrying HRV results are modelled as `Option` rationals:
  `none` models NaN, and every ordered comparison against `none` is false,
  as it is for NaN;
* square roots produce real numbers; since `Real.sqrt` has no executable
  code, the definitions compute the exact rational radicand (mean of
  squares, variance) and the theorems speak about `Real.sqrt` of it.
-/

namespace PolarHRV


/-- A beat record: (timestamp in nanoseconds since the Unix epoch,
RR-interval value in milliseconds). -/
abbrev Row := Int × Int

/-- `np.mean` of a list of integers, as an exact rational. -/
def qmean (l : List Int) : ℚ := (l.sum : ℚ) / (l.length : ℚ)

/-!  ### HRV estimators (HRV_calculation.py)  -/

/-- `indices_to_remove` of `RMSSD_HRV_calculation`: the index labels
(timestamps) at the positions where the index-series diff
(`RR_intervals_squared.index.to_series().diff()`) exceeds two seconds.
The diff leaves NaT at its first position, which compares false, so only
the later timestamp of each oversized gap is flagged. -/
def rmssdFlagged (ts : List Int) : List Int :=
  (ts.zip ts.tail).filterMap
    (fun p => if p.2 - p.1 > 2000000000 then some p.2 else none)

/-- The list of squared successive differences that
`RMSSD_HRV_calculation` averages, translated from the source:
`data.diff()[1:]` squared is a series labelled by the timestamps of
positions 1..n-1, and `drop(labels=indices_to_remove)` removes every row
whose timestamp label belongs to the flagged set - dropping by label, not
by position, so all rows sharing a flagged timestamp are removed. -/
def RMSSD_kept (l : List Row) : List Int :=
  let sqWithTs := (l.zip l.tail).map (fun p => (p.2.1, (p.2.2 - p.1.2) ^ 2))
  let tsTail := (l.map Prod.fst).tail
  (sqWithTs.filter (fun q => !(decide (q.1 ∈ rmssdFlagged tsTail)))).map Prod.snd

/-- Radicand of `RMSSD_HRV_calculation`: 0 for series of length 0 or 1
(the source returns the integer 0 then), otherwise the mean of the kept
squared successive differences.  The float the source returns is
`Real.sqrt` of this rational. -/
def RMSSD_mean (l : List Row) : ℚ :=
  if l.length ≤ 1 then 0 else qmean (RMSSD_kept l)

/-- The common outlier exclusion of `SDNN_HRV_calculation` and
`pNN50_HRV_calculation`: `data.drop(outliers.index)` drops by index
label (the timestamp), so every row whose timestamp coincides with the
timestamp of some value exceeding 2000 ms is removed. -/
def dropOver2000 (l : List Row) : List Int :=
  (l.filter (fun r =>
    !(decide (r.1 ∈ (l.filter (fun s => decide (s.2 > 2000))).map Prod.fst)))).map
    Prod.snd

/-- Population variance (`ddof=0`) of a list of integers.  Only meaningful
for nonempty lists; the caller returns NaN (`none`) on the empty list. -/
def varianceQ (l : List Int) : ℚ :=
  (l.map (fun v => ((v : ℚ) - qmean l) ^ 2)).sum / (l.length : ℚ)

/-- Executable core of `SDNN_HRV_calculation`: the population variance of
the values that survive the 2000 ms exclusion, `some 0` for series of
length 0 or 1 (the source returns the integer 0 before filtering), and
`none` (NaN) when the exclusion removes every value, as pandas
`Series.std(ddof=0)` of an empty series is NaN.  The float the source
returns is `Real.sqrt` of this rational. -/
def SDNN_var (l : List Row) : Option ℚ :=
  if l.length ≤ 1 then some 0
  else if (dropOver2000 l).isEmpty then none
  else some (varianceQ (dropOver2000 l))

/-- `pNN50_HRV_calculation`: after the 2000 ms exclusion, the fraction of
successive differences of absolute value above 50 ms; 0 for series of
length 0 or 1 and when no difference qualifies. -/
def pNN50_HRV_calculation (l : List Row) : ℚ :=
  if l.length ≤ 1 then 0
  else
    let kept := dropOver2000 l
    let diffs := (kept.zip kept.tail).map (fun p => p.2 - p.1)
    let nn50 := (diffs.filter (fun d => decide (50 < d.natAbs))).length
    if nn50 = 0 then 0 else (nn50 : ℚ) / (diffs.length : ℚ)

/-- The squared successive differences the claim says RMSSD averages:
every pair whose own timestamp gap exceeds two seconds is excluded,
the first pair included.  This definition follows the words of the
specification, for comparison against the source translation. -/
def RMSSD_claimed_kept (l : List Row) : List Int :=
  ((l.zip l.tail).filter (fun p => !(decide (p.2.1 - p.1.1 > 2000000000)))).map
    (fun p => (p.2.2 - p.1.2) ^ 2)

/-- Radicand of RMSSD as the claim describes it (gap exclusion applied to
all successive pairs, the first included). -/
def RMSSD_claimed_mean (l : List Row) : ℚ :=
  if l.length ≤ 1 then 0 else qmean (RMSSD_claimed_kept l)

/-- The squared successive differences RMSSD actually averages, in
closed form: the first pair is always kept, and a later pair is kept
exactly when its own timestamp gap is at most two seconds. -/
def RMSSD_amended_kept (l : List Row) : List Int :=
  match l.zip l.tail with
  | [] => []
  | p0 :: rest =>
      (p0.2.2 - p0.1.2) ^ 2 ::
        (rest.filter (fun p => !(decide (p.2.1 - p.1.1 > 2000000000)))).map
          (fun p => (p.2.2 - p.1.2) ^ 2)

/-!  ### Window slicing (HRV_calculation.py)  -/

/-- `pd.date_range(t0, tN, freq=step)`: the instants t0, t0+step, ...
up to and including the last one that is at most tN; empty when tN is
before t0.  Requires a positive step, as pandas frequencies are. -/
def date_range (t0 tN step : Int) : List Int :=
  if tN < t0 then []
  else (List.range (((tN - t0) / step).toNat + 1)).map (fun i : ℕ => t0 + step * (i : Int))

/-- `generate_slide_over_series`: one window per start in the date range
from the first to the last timestamp; each window is the label slice
`series[step : step + win_size]`, which on a monotone index is inclusive
at both endpoints.  The source indexes an empty series and raises; here
the empty series yields no windows (the pipeline never reaches it). -/
def generate_slide_over_series (l : List Row) (step win : Int) : List (List Row) :=
  match l with
  | [] => []
  | a :: rest =>
      (date_range a.1 (((a :: rest).getLastD a).1) step).map
        (fun s => (a :: rest).filter (fun r => decide (s ≤ r.1) && decide (r.1 ≤ s + win)))

/-- `prepare_windows_any_frequency_any_step`: asserts
`step_frequency <= win_size` before materializing any window
(`none` models the `AssertionError`). -/
def prepare_windows_any_frequency_any_step (l : List Row) (step win : Int) :
    Option (List (List Row)) :=
  if step ≤ win then some (generate_slide_over_series l step win) else none

/-!  ### Window deduplication (HRV_calculation.py)  -/

/-- The mark the deduplication loop sets: position j is marked exactly
when both the window at j and the one at j+1 are nonempty, share their
first timestamp, and have the same number of elements (the loop writes
`list_filter[i - 1] = True` for i = j + 1; its nonemptiness guard is the
truthiness of the series length). -/
def duplMark (ws : List (List Row)) (j : Nat) : Bool :=
  match ws.getD j [], ws.getD (j + 1) [] with
  | p :: as, p' :: bs => decide (p.1 = p'.1) && decide (as.length = bs.length)
  | _, _ => false

/-- `filter_windows_with_chunked_dataframe`: delete the marked windows
(`np.delete` at the marked positions), keeping the later of two adjacent
duplicates. -/
def filter_windows_with_chunked_dataframe (ws : List (List Row)) : List (List Row) :=
  (ws.enum.filter (fun q => !(duplMark ws q.1))).map Prod.snd

/-!  ### Missing-data filtering (HRV_calculation.py)  -/

/-- The float comparison `value < eps` of the source, on the NaN model:
any comparison against NaN (`none`) is false. -/
def floatLtQ : Option ℚ → ℚ → Bool
  | none, _ => false
  | some q, e => decide (q < e)

/-- `find_and_filter_missing_data`: collect the indices of HRV values
below `eps` (none for pNN50), the indices of timestamps equal to the
Unix-epoch sentinel, and delete the union of both index sets from both
arrays in lockstep.  The source fixes `eps = 1e-8` against the float
results; the windowed pipeline below stores the exact squared cores of
RMSSD/SDNN, for which the equivalent threshold is `(1e-8)^2`. -/
def find_and_filter_missing_data (HRV : List (Option ℚ)) (ts : List ℚ)
    (method : String) (eps : ℚ) : List (Option ℚ) × List ℚ :=
  let indicesHRV : List Nat :=
    if method = "pNN50" then []
    else (HRV.enum.filter (fun p => floatLtQ p.2 eps)).map Prod.fst
  let indicesTime : List Nat :=
    (ts.enum.filter (fun p => decide (p.2 = 0))).map Prod.fst
  ((HRV.enum.filter
      (fun q => !(decide (q.1 ∈ indicesHRV ∨ q.1 ∈ indicesTime)))).map Prod.snd,
   (ts.enum.filter
      (fun q => !(decide (q.1 ∈ indicesHRV ∨ q.1 ∈ indicesTime)))).map Prod.snd)

/-- The removal condition as the claim words it: entry i is removed
exactly when (method is not pNN50 and its value is below eps) or its
timestamp is the epoch-zero sentinel. -/
def mdfRemoved (HRV : List (Option ℚ)) (ts : List ℚ) (method : String) (eps : ℚ)
    (i : Nat) : Bool :=
  (decide (method ≠ "pNN50") && floatLtQ (HRV.getD i none) eps) || decide (ts.getD i 0 = 0)

/-!  ### Windowed HRV pipeline (HRV_calculation.py)  -/

/-- `np.median` of the window timestamps.  The source converts instants
through `mdates.date2num`, takes the median and converts back; both
conversions are affine, so the median is computed directly on the
nanosecond values (exactly, in ℚ).  Only called on windows with at least
two entries; the empty case is unreachable there. -/
def medianTimestamp (l : List Int) : ℚ :=
  let s := List.insertionSort (· ≤ ·) l
  if s.length = 0 then 0
  else if s.length % 2 = 1 then ((s.getD (s.length / 2) 0 : Int) : ℚ)
  else (((s.getD (s.length / 2 - 1) 0 : Int) : ℚ) + ((s.getD (s.length / 2) 0 : Int) : ℚ)) / 2

/-- One iteration of the loop of `calculate_HRV_in_windows`: a window
with at most one element keeps its zero-initialized HRV slot and
epoch-zero timestamp; otherwise the selected estimator runs and the
median timestamp is recorded; an unrecognized method raises
`NotImplementedError`.  RMSSD and SDNN store their exact square cores
(mean of squares, variance); see `find_and_filter_missing_data` for the
matching threshold. -/
def windowStep (method : String) (w : List Row) : Except String (Option ℚ × ℚ) :=
  if 1 < w.length then
    match method with
    | "RMSSD" => Except.ok (some (RMSSD_mean w), medianTimestamp (w.map Prod.fst))
    | "SDNN" => Except.ok (SDNN_var w, medianTimestamp (w.map Prod.fst))
    | "pNN50" => Except.ok (some (pNN50_HRV_calculation w), medianTimestamp (w.map Prod.fst))
    | _ => Except.error "NotImplementedError"
  else Except.ok (some 0, 0)

/-- `calculate_HRV_in_windows`: window the series, deduplicate, run the
selected estimator on every window with more than one element, and
filter missing data from the parallel result arrays. -/
def calculate_HRV_in_windows (data : List Row) (step win : Int) (method : String) :
    Except String (List (Option ℚ) × List ℚ) :=
  match prepare_windows_any_frequency_any_step data step win with
  | none => Except.error "AssertionError: step_frequency <= win_size"
  | some ws =>
      (((filter_windows_with_chunked_dataframe ws).mapM (windowStep method)).map
        (fun rs => find_and_filter_missing_data (rs.map Prod.fst) (rs.map Prod.snd) method
          (1 / 10000000000000000)))

/-- One step of the inner loop of `remove_preceding_and_following_beat`:
append the candidate neighbor index if it is inside [0, length), not
among the original indices, and not already collected. -/
def considerAdj (length : Int) (all acc : List Int) (adj : Int) : List Int :=
  if 0 ≤ adj ∧ adj < length ∧ adj ∉ all ∧ adj ∉ acc then acc ++ [adj] else acc

/-- The outer loop of `remove_preceding_and_following_beat`: for each
index, consider its predecessor then its successor. -/
def addNeighbors (length : Int) (all : List Int) : List Int → List Int → List Int
  | [], acc => acc
  | idx :: rest, acc =>
      addNeighbors length all rest
        (considerAdj length all (considerAdj length all acc (idx - 1)) (idx + 1))

/-- `remove_preceding_and_following_beat`: assert that no index reaches
the dataframe length, collect each index's in-range neighbors that are
not already present, and return the sorted concatenation. -/
def remove_preceding_and_following_beat (to_remove : List Int) (length : Int) :
    Option (List Int) :=
  if to_remove.any (fun i => decide (length ≤ i)) then none
  else some (List.insertionSort (· ≤ ·)
    (to_remove ++ addNeighbors length to_remove to_remove []))

/-!  ### Spline interpolation of removed beats (utils_preprocessing.py)  -/

/-- A beat record with interpolated (possibly fractional) value:
(timestamp in nanoseconds, value in milliseconds). -/
abbrev RowQ := Int × ℚ

/-- `np.min` of a value list (meaningful on nonempty lists only). -/
def listMinQ : List ℚ → ℚ
  | [] => 0
  | a :: r => r.foldl min a

/-- `np.max` of a value list (meaningful on nonempty lists only). -/
def listMaxQ : List ℚ → ℚ
  | [] => 0
  | a :: r => r.foldl max a

/-- Duplicate removal by membership; `np.setdiff1d` sorts its
duplicate-free result, so any set-preserving dedup yields the same
sorted list. -/
def uniqueList : List Int → List Int
  | [] => []
  | a :: t => if a ∈ t then uniqueList t else a :: uniqueList t

/-- `np.setdiff1d`: the sorted duplicate-free list of values of the
first list that are absent from the second. -/
def setdiff1d (xs ys : List Int) : List Int :=
  List.insertionSort (· ≤ ·) (uniqueList (xs.filter (fun t => !(decide (t ∈ ys)))))

/-- The removed timestamps that survive the boundary filter of
`interpolate_data_with_splines`: removed timestamps below the first or
above the last timestamp of the post-filter series are deleted (DWT
cannot extrapolate there). -/
def spline_in_bounds_timestamps (original current : List RowQ) : List Int :=
  match current with
  | [] => []
  | c0 :: rest =>
      (setdiff1d (original.map Prod.fst) ((c0 :: rest).map Prod.fst)).filter
        (fun t => !(decide (t < c0.1) || decide (t > ((c0 :: rest).getLastD c0).1)))

/-- The spline predictions at the surviving removed timestamps; the
spline itself (scipy `CubicSpline` over floats) is the function
parameter `f`, and integer-valued columns round their predictions. -/
def spline_predictions (f : Int → ℚ) (roundPreds : Bool)
    (original current : List RowQ) : List ℚ :=
  (spline_in_bounds_timestamps original current).map
    (fun t => if roundPreds then ((round (f t) : ℤ) : ℚ) else f t)

/-- The candidate reconstructed rows: the original rows at the surviving
removed timestamps, their value column overwritten positionally with the
predictions. -/
def spline_candidate_rows (f : Int → ℚ) (roundPreds : Bool)
    (original current : List RowQ) : List RowQ :=
  ((original.filter
      (fun r => decide (r.1 ∈ spline_in_bounds_timestamps original current))).zip
    (spline_predictions f roundPreds original current)).map (fun q => (q.1.1, q.2))

/-- `interpolate_data_with_splines`: candidates whose value leaves the
[min, max] range of the post-filter values are dropped (not clamped),
the remainder is merged with the post-filter series and sorted by
timestamp.  `none` models the source failures: the empty post-filter
series (`iloc[0]` raises) and the asserted empty intersection between
reconstructed and surviving timestamps. -/
def interpolate_data_with_splines (f : Int → ℚ) (roundPreds : Bool)
    (original current : List RowQ) : Option (List RowQ × List ℚ × List Int) :=
  match current with
  | [] => none
  | c0 :: rest =>
      if ((spline_candidate_rows f roundPreds original (c0 :: rest)).filter
          (fun r => !(decide (r.2 < listMinQ ((c0 :: rest).map Prod.snd)) ||
            decide (r.2 > listMaxQ ((c0 :: rest).map Prod.snd))))).any
          (fun r => (c0 :: rest).any (fun c => decide (c.1 = r.1)))
      then none
      else
        some (List.insertionSort (fun a b : RowQ => a.1 ≤ b.1)
          (((spline_candidate_rows f roundPreds original (c0 :: rest)).filter
            (fun r => !(decide (r.2 < listMinQ ((c0 :: rest).map Prod.snd)) ||
              decide (r.2 > listMaxQ ((c0 :: rest).map Prod.snd))))) ++ (c0 :: rest)),
          spline_predictions f roundPreds original (c0 :: rest),
          spline_in_bounds_timestamps original (c0 :: rest))

/-!  ### Beat-filter stages 1 - 4 (utils_preprocessing.py / utils_loading.py)  -/

/-- The rewind positions collected by `remove_negative_timestamps`:
walking the timestamps with the running maximum `m`, position `k + i` is
flagged when its timestamp is below the running maximum (its delta is
negative); the maximum is updated whenever a timestamp exceeds it. -/
def negPositionsAux : Int → Nat → List Int → List Nat
  | _, _, [] => []
  | m, i, t :: rest => (if t < m then [i] else []) ++ negPositionsAux (max m t) (i + 1) rest

/-- Flagged rewind positions of a timestamp list; the first position
gets delta 0 and is never flagged. -/
def negPositions : List Int → List Nat
  | [] => []
  | t :: rest => negPositionsAux t 1 rest

/-- The removal set of `remove_negative_timestamps`: each flagged
position together with its positional neighbors, one-sided at the ends
of the frame (the source also guards `value in indices`; an overshooting
`p + 1` at the very end is dropped identically by position filtering). -/
def expandNeighbors (n : Nat) (ps : List Nat) : List Nat :=
  ps.flatMap (fun p =>
    if p = 0 then [p, p + 1]
    else if p = n - 1 then [p - 1, p]
    else [p - 1, p, p + 1])

/-- `remove_negative_timestamps`: drop every flagged rewind row together
with its positional neighbors.  The source starts with `indices[0]`,
which raises IndexError on the empty frame: `none` models that raise. -/
def remove_negative_timestamps (l : List Row) : Option (List Row) :=
  match l with
  | [] => none
  | a :: rest =>
      some (((a :: rest).enum.filter (fun q =>
        !(decide (q.1 ∈ expandNeighbors (a :: rest).length
          (negPositions ((a :: rest).map Prod.fst)))))).map Prod.snd)

/-- `remove_first_and_last_indices`: keep the rows strictly after
`first + initial_cut` and strictly before `last - end_cut` (the source
removes with inclusive bounds).  The source starts with `data.iloc[0]`,
which raises IndexError on the empty frame: `none` models that raise. -/
def remove_first_and_last_indices (l : List Row) (c1 c2 : Int) : Option (List Row) :=
  match l with
  | [] => none
  | a :: rest =>
      some ((a :: rest).filter (fun r =>
        decide (a.1 + c1 < r.1) && decide (r.1 < ((a :: rest).getLastD a).1 - c2)))

/-- `remove_selected_time_ranges`: successively drop every row whose
timestamp is inside one of the closed ranges. -/
def remove_selected_time_ranges (l : List Row) (ranges : List (Int × Int)) : List Row :=
  ranges.foldl
    (fun d rg => d.filter (fun r => !(decide (rg.1 ≤ r.1) && decide (r.1 ≤ rg.2)))) l

/-- The timestamps right after holes: sort the timestamps, diff
consecutive sorted values, and flag the later timestamp of every gap
above the hole size (the diff leaves NaT at the first sorted position,
never flagged). -/
def holesTimestamps (l : List Row) (hole : Int) : List Int :=
  ((List.insertionSort (· ≤ ·) (l.map Prod.fst)).zip
      (List.insertionSort (· ≤ ·) (l.map Prod.fst)).tail).filterMap
    (fun p => if hole < p.2 - p.1 then some p.2 else none)

/-- `remove_consecutive_beats_after_holes`: remove every beat within
`[t, t + window_time]` for each post-hole timestamp `t`. -/
def remove_consecutive_beats_after_holes (l : List Row) (hole win : Int) : List Row :=
  remove_selected_time_ranges l ((holesTimestamps l hole).map (fun t => (t, t + win)))

/-- `remove_adjacent_beats`: for every flagged index still present in
the frame, remove all beats within `[t - time, t + time]` of its
timestamp. -/
def remove_adjacent_beats (l : List Row) (flagged : List Nat) (time : Int) : List Row :=
  remove_selected_time_ranges l
    (((l.enum.filter (fun q => decide (q.1 ∈ flagged))).map (fun q => q.2.1)).map
      (fun t => (t - time, t + time)))

/-- Stages 1-4 of the preprocessing pipeline as composed by
`load_and_preprocess_data_for_single_person`: negative-timestamp repair,
edge trimming, post-hole suppression, then wavelet anomaly removal with
neighborhood suppression.  The wavelet detector
(`select_indices_to_filtering`, a floating-point DWT) enters only
through the flagged-index function `A` applied to the stage-3 output;
its `pywt.dwt` call raises ValueError on the empty frame, modelled by
the `none` branch, and stages 1 and 2 propagate their own raises. -/
def preprocess_stages14 (A : List Row → List Nat) (c1 c2 hole wt adj : Int)
    (x : List Row) : Option (List Row) :=
  (remove_negative_timestamps x).bind (fun s1 =>
    (remove_first_and_last_indices s1 c1 c2).bind (fun s2 =>
      if remove_consecutive_beats_after_holes s2 hole wt = [] then none
      else some (remove_adjacent_beats
        (remove_consecutive_beats_after_holes s2 hole wt)
        (A (remove_consecutive_beats_after_holes s2 hole wt)) adj)))

lemma mem_rmssdFlagged (u : List Int) (x : Int) :
    x ∈ rmssdFlagged u ↔
      ∃ j : Nat, j + 1 < u.length ∧ u.getD (j + 1) 0 = x ∧
        u.getD (j + 1) 0 - u.getD j 0 > 2000000000 := by
  unfold rmssdFlagged
  rw [List.mem_filterMap]
  constructor
  · rintro ⟨p, hp, hpx⟩
    by_cases hgt : p.2 - p.1 > 2000000000
    · rw [if_pos hgt] at hpx
      obtain ⟨j, hj, hpj⟩ := List.mem_iff_getElem.mp hp
      have hj2 : j + 1 < u.length := by
        rw [List.length_zip, List.length_tail] at hj
        omega
      simp only [List.getElem_zip, List.getElem_tail] at hpj
      have hp1 : p.1 = u[j] := by rw [← hpj]
      have hp2 : p.2 = u[j + 1] := by rw [← hpj]
      refine ⟨j, hj2, ?_, ?_⟩
      · rw [List.getD_eq_getElem u 0 hj2]
        have hx2 := Option.some.inj hpx
        rw [hp2] at hx2
        exact hx2
      · rw [List.getD_eq_getElem u 0 hj2, List.getD_eq_getElem u 0 (by omega : j < u.length)]
        have hgt2 := hgt
        rw [hp1, hp2] at hgt2
        exact hgt2
    · rw [if_neg hgt] at hpx
      exact absurd hpx (by simp)
  · rintro ⟨j, hj, hx, hgap⟩
    refine ⟨(u.getD j 0, u.getD (j + 1) 0), ?_, ?_⟩
    · rw [List.mem_iff_getElem]
      refine ⟨j, ?_, ?_⟩
      · rw [List.length_zip, List.length_tail]
        omega
      · simp only [List.getElem_zip, List.getElem_tail]
        rw [List.getD_eq_getElem u 0 hj, List.getD_eq_getElem u 0 (by omega : j < u.length)]
    · rw [if_pos hgap, hx]

lemma mem_rmssdFlagged_getD (u : List Int) (hnd : u.Nodup) (i : Nat)
    (hi : i + 1 < u.length) :
    u.getD (i + 1) 0 ∈ rmssdFlagged u ↔
      u.getD (i + 1) 0 - u.getD i 0 > 2000000000 := by
  rw [mem_rmssdFlagged]
  constructor
  · rintro ⟨j, hj, hx, hgap⟩
    have h1 : u[j + 1] = u[i + 1] := by
      rw [List.getD_eq_getElem u 0 hj, List.getD_eq_getElem u 0 hi] at hx
      exact hx
    have h2 : j + 1 = i + 1 := (hnd.getElem_inj_iff).mp h1
    have h3 : j = i := by omega
    subst h3
    exact hgap
  · intro hgap
    exact ⟨i, hi, rfl, hgap⟩

lemma head_not_mem_rmssdFlagged (u : List Int) (hnd : u.Nodup) (hu : 0 < u.length) :
    u.getD 0 0 ∉ rmssdFlagged u := by
  rw [mem_rmssdFlagged]
  rintro ⟨j, hj, hx, hgap⟩
  have h1 : u[j + 1] = u[0] := by
    rw [List.getD_eq_getElem u 0 hj, List.getD_eq_getElem u 0 hu] at hx
    exact hx
  have h2 : j + 1 = 0 := (hnd.getElem_inj_iff).mp h1
  omega

lemma RMSSD_kept_eq_amended (l : List Row) (hnd : (l.map Prod.fst).Nodup) :
    RMSSD_kept l = RMSSD_amended_kept l := by
  match l, hnd with
  | [], _ => rfl
  | [a], _ => rfl
  | a :: b :: t, hnd =>
    have hndu : ((b :: t).map Prod.fst).Nodup :=
      List.Nodup.sublist (List.tail_sublist ((a :: b :: t).map Prod.fst)) hnd
    have hL : RMSSD_kept (a :: b :: t) =
        ((((a :: b :: t).zip (b :: t)).map
            (fun p : Row × Row => (p.2.1, (p.2.2 - p.1.2) ^ 2))).filter
          (fun q => !(decide (q.1 ∈ rmssdFlagged ((b :: t).map Prod.fst))))).map
          Prod.snd := rfl
    have hR : RMSSD_amended_kept (a :: b :: t) =
        (b.2 - a.2) ^ 2 ::
          (((b :: t).zip t).filter
            (fun p : Row × Row => !(decide (p.2.1 - p.1.1 > 2000000000)))).map
            (fun p : Row × Row => (p.2.2 - p.1.2) ^ 2) := rfl
    rw [hL, hR, List.filter_map, List.map_map]
    show (((a :: b :: t).zip (b :: t)).filter
        (fun p : Row × Row =>
          !(decide (p.2.1 ∈ rmssdFlagged ((b :: t).map Prod.fst))))).map
        (fun p : Row × Row => (p.2.2 - p.1.2) ^ 2) = _
    rw [List.zip_cons_cons, List.filter_cons_of_pos (by
      simp only [Bool.not_eq_true', decide_eq_false_iff_not]
      exact head_not_mem_rmssdFlagged ((b :: t).map Prod.fst) hndu (by simp)),
      List.map_cons]
    refine congrArg (fun z => (b.2 - a.2) ^ 2 :: z) ?_
    refine congrArg (List.map (fun p : Row × Row => (p.2.2 - p.1.2) ^ 2)) ?_
    refine List.filter_congr ?_
    intro x hx
    obtain ⟨i, hi, hix⟩ := List.mem_iff_getElem.mp hx
    have hit : i < t.length := by
      rw [List.length_zip] at hi
      simp at hi
      omega
    have hiu : i + 1 < ((b :: t).map Prod.fst).length := by
      simp
      omega
    simp only [List.getElem_zip] at hix
    have hx1 : x.1.1 = ((b :: t).map Prod.fst).getD i 0 := by
      rw [List.getD_eq_getElem _ 0 (by simp; omega), List.getElem_map, ← hix]
    have hx2 : x.2.1 = ((b :: t).map Prod.fst).getD (i + 1) 0 := by
      rw [List.getD_eq_getElem _ 0 hiu, List.getElem_map, List.getElem_cons_succ, ← hix]
    show (!(decide (x.2.1 ∈ rmssdFlagged ((b :: t).map Prod.fst)))) =
      (!(decide (x.2.1 - x.1.1 > 2000000000)))
    rw [hx1, hx2]
    exact congrArg (fun z => !z)
      (decide_eq_decide.mpr (mem_rmssdFlagged_getD ((b :: t).map Prod.fst) hndu i hiu))

/-- C2 counterexample: at a series whose very first successive pair has a
3-second gap, the source RMSSD keeps that pair (its gap is never computed)
while the claimed RMSSD excludes it, and the two results differ. -/
theorem RMSSD_first_pair_gap_counterexample :
    Real.sqrt (RMSSD_mean
        [((0 : Int), (650 : Int)), (3000000000, 700), (4000000000, 675)]) ≠
      Real.sqrt (RMSSD_claimed_mean
        [((0 : Int), (650 : Int)), (3000000000, 700), (4000000000, 675)]) := by
  have hk : RMSSD_kept
      [((0 : Int), (650 : Int)), (3000000000, 700), (4000000000, 675)] = [2500, 625] := by
    decide
  have hck : RMSSD_claimed_kept
      [((0 : Int), (650 : Int)), (3000000000, 700), (4000000000, 675)] = [625] := by
    decide
  have h1 : RMSSD_mean
      [((0 : Int), (650 : Int)), (3000000000, 700), (4000000000, 675)] = 3125 / 2 := by
    unfold RMSSD_mean
    rw [if_neg (by decide), hk]
    norm_num [qmean]
  have h2 : RMSSD_claimed_mean
      [((0 : Int), (650 : Int)), (3000000000, 700), (4000000000, 675)] = 625 := by
    unfold RMSSD_claimed_mean
    rw [if_neg (by decide), hck]
    norm_num [qmean]
  rw [h1, h2]
  intro h
  have h3 : ((3125 / 2 : ℚ) : ℝ) = ((625 : ℚ) : ℝ) :=
    (Real.sqrt_inj (by norm_num) (by norm_num)).mp h
  norm_num at h3

/-- C2 (amended): on series with pairwise-distinct timestamps, RMSSD
equals the square root of the mean of the squared successive differences
in which the first pair is always kept and every later pair is excluded
exactly when its own timestamp gap exceeds two seconds; on the example
series the result is within 10^-6 of 45.276925691.  Under timestamp
collisions the label drop removes every pair sharing a flagged
timestamp: with timestamps 0, 1s, 4s, 4s the flagged label 4s removes
both later pairs, keeping only the first square. -/
theorem RMSSD_gap_exclusion_amended :
    (∀ l : List Row, 2 ≤ l.length → (l.map Prod.fst).Nodup →
        Real.sqrt (RMSSD_mean l) = Real.sqrt (qmean (RMSSD_amended_kept l))) ∧
      |Real.sqrt (RMSSD_mean
          [((0 : Int), (650 : Int)), (1000000000, 700), (2000000000, 675), (3300000000, 730)]) -
        45.276925691| < 1 / 1000000 ∧
      RMSSD_kept
          [((0 : Int), (650 : Int)), (1000000000, 700), (4000000000, 675), (4000000000, 730)] =
        [2500] := by
  refine ⟨?_, ?_, by decide⟩
  · intro l h hnd
    unfold RMSSD_mean
    rw [if_neg (by omega), RMSSD_kept_eq_amended l hnd]
  · have hk : RMSSD_kept
        [((0 : Int), (650 : Int)), (1000000000, 700), (2000000000, 675), (3300000000, 730)] =
          [2500, 625, 3025] := by decide
    have h1 : RMSSD_mean
        [((0 : Int), (650 : Int)), (1000000000, 700), (2000000000, 675), (3300000000, 730)] =
          2050 := by
      unfold RMSSD_mean
      rw [if_neg (by decide), hk]
      norm_num [qmean]
    rw [h1]
    have hcast : ((2050 : ℚ) : ℝ) = (2050 : ℝ) := by norm_num
    rw [hcast, abs_sub_lt_iff]
    constructor
    · have hlt : Real.sqrt 2050 < 45.276925691 + 1 / 1000000 := by
        rw [Real.sqrt_lt' (by norm_num)]
        norm_num
      linarith
    · have hgt : (45.276925691 - 1 / 1000000 : ℝ) < Real.sqrt 2050 := by
        have h2 : ((45.276925691 - 1 / 1000000 : ℝ)) ^ 2 < 2050 := by norm_num
        exact Real.lt_sqrt_of_sq_lt h2
      linarith

/-- C2 witness: the amended equality applied to a concrete two-beat series. -/
theorem RMSSD_gap_exclusion_amended_witness :
    Real.sqrt (RMSSD_mean [((0 : Int), (650 : Int)), (1000000000, 700)]) =
      Real.sqrt (qmean (RMSSD_amended_kept [((0 : Int), (650 : Int)), (1000000000, 700)])) :=
  RMSSD_gap_exclusion_amended.1 _ (by decide) (by decide)

/-- C9: each of the three HRV estimators returns 0 (for SDNN, `some 0`)
on every series of length 0 or 1, rather than raising. -/
theorem estimators_return_zero_on_short_series (l : List Row)
    (h : l.length = 0 ∨ l.length = 1) :
    Real.sqrt (RMSSD_mean l) = 0 ∧
      (SDNN_var l).map (fun q : ℚ => Real.sqrt (q : ℝ)) = some 0 ∧
      pNN50_HRV_calculation l = 0 := by
  have hle : l.length ≤ 1 := by rcases h with h | h <;> omega
  refine ⟨?_, ?_, ?_⟩
  · unfold RMSSD_mean
    rw [if_pos hle]
    simp
  · unfold SDNN_var
    rw [if_pos hle]
    simp
  · unfold pNN50_HRV_calculation
    rw [if_pos hle]

/-- C9 witness: the zero results at a concrete singleton series. -/
theorem estimators_return_zero_on_short_series_witness :
    Real.sqrt (RMSSD_mean [((0 : Int), (700 : Int))]) = 0 ∧
      (SDNN_var [((0 : Int), (700 : Int))]).map (fun q : ℚ => Real.sqrt (q : ℝ)) = some 0 ∧
      pNN50_HRV_calculation [((0 : Int), (700 : Int))] = 0 :=
  estimators_return_zero_on_short_series _ (Or.inr (by decide))

/-!  ### Index bookkeeping helpers  -/

lemma enumFrom_filter_map {α : Type _} (p : Nat → Bool) (d : α) :
    ∀ (l : List α) (k : Nat),
      ((l.enumFrom k).filter (fun q => p q.1)).map Prod.snd =
        ((List.range l.length).filter (fun i => p (k + i))).map (fun i => l.getD i d)
  | [], k => by simp
  | a :: t, k => by
    rw [List.enumFrom_cons, List.length_cons, List.range_succ_eq_map]
    have hfeq : (List.range t.length).filter ((fun i => p (k + i)) ∘ Nat.succ) =
        (List.range t.length).filter (fun i => p (k + 1 + i)) := by
      apply List.filter_congr
      intro i _
      have h5 : k + 1 + i = k + (i + 1) := by omega
      simp [Function.comp, h5]
    by_cases hpk : p k
    · rw [List.filter_cons_of_pos (by simpa using hpk),
        List.filter_cons_of_pos (by simpa using hpk), List.map_cons, List.map_cons,
        List.getD_cons_zero, List.filter_map, List.map_map,
        enumFrom_filter_map p d t (k + 1), hfeq]
      rfl
    · rw [List.filter_cons_of_neg (by simpa using hpk),
        List.filter_cons_of_neg (by simpa using hpk), List.filter_map, List.map_map,
        enumFrom_filter_map p d t (k + 1), hfeq]
      rfl

lemma enum_filter_map {α : Type _} (p : Nat → Bool) (d : α) (l : List α) :
    ((l.enum.filter (fun q => p q.1)).map Prod.snd) =
      ((List.range l.length).filter p).map (fun i => l.getD i d) := by
  rw [show l.enum = l.enumFrom 0 from rfl, enumFrom_filter_map p d l 0]
  congr 1
  apply List.filter_congr
  intro i _
  rw [Nat.zero_add]

lemma mem_enum_filter_map_fst {α : Type _} (l : List α) (p : ℕ × α → Bool) (i : Nat) :
    i ∈ (l.enum.filter p).map Prod.fst ↔ ∃ x, l[i]? = some x ∧ p (i, x) := by
  constructor
  · intro h
    rcases List.mem_map.mp h with ⟨q, hq, hfst⟩
    rcases List.mem_filter.mp hq with ⟨hmem, hp⟩
    obtain ⟨j, x⟩ := q
    cases hfst
    exact ⟨x, List.mk_mem_enum_iff_getElem?.mp hmem, hp⟩
  · rintro ⟨x, hget, hp⟩
    exact List.mem_map.mpr
      ⟨(i, x), List.mem_filter.mpr ⟨List.mk_mem_enum_iff_getElem?.mpr hget, hp⟩, rfl⟩

/-- C3: on a nonempty monotone series, the slicer succeeds when
step ≤ window, the window starts are exactly t0, t0+step, ... up to and
including the last start at most tN, and window i holds exactly the
entries with start ≤ t ≤ start + win, inclusive at both ends. -/
theorem window_slicer_starts_and_membership (a : Row) (rest : List Row) (step win : Int)
    (hsorted : List.Pairwise (fun r s : Row => r.1 ≤ s.1) (a :: rest))
    (hstep : 0 < step) (hsw : step ≤ win) :
    ∃ ws : List (List Row),
      prepare_windows_any_frequency_any_step (a :: rest) step win = some ws ∧
      ws.length = ((((a :: rest).getLastD a).1 - a.1) / step).toNat + 1 ∧
      (∀ i : Nat, i < ws.length → a.1 + step * i ≤ ((a :: rest).getLastD a).1) ∧
      ((a :: rest).getLastD a).1 < a.1 + step * ws.length ∧
      (∀ i : Nat, i < ws.length → ∀ r : Row,
        r ∈ ws.getD i [] ↔
          r ∈ a :: rest ∧ a.1 + step * i ≤ r.1 ∧ r.1 ≤ a.1 + step * i + win) := by
  have hlastmem : (a :: rest).getLastD a ∈ a :: rest := by
    rw [List.getLastD_cons]
    exact List.getLastD_mem_cons rest a
  have ht0N : a.1 ≤ ((a :: rest).getLastD a).1 := by
    rcases List.mem_cons.mp hlastmem with h | h
    · rw [h]
    · exact (List.pairwise_cons.mp hsorted).1 _ h
  have hq0 : 0 ≤ (((a :: rest).getLastD a).1 - a.1) / step :=
    Int.ediv_nonneg (by omega) (le_of_lt hstep)
  have hprep : prepare_windows_any_frequency_any_step (a :: rest) step win =
      some (((List.range (((((a :: rest).getLastD a).1 - a.1) / step).toNat + 1)).map
          (fun i : ℕ => a.1 + step * (i : Int))).map
        (fun s => (a :: rest).filter (fun r => decide (s ≤ r.1) && decide (r.1 ≤ s + win)))) := by
    unfold prepare_windows_any_frequency_any_step
    rw [if_pos hsw]
    have hgen : generate_slide_over_series (a :: rest) step win =
        (date_range a.1 (((a :: rest).getLastD a).1) step).map
          (fun s => (a :: rest).filter (fun r => decide (s ≤ r.1) && decide (r.1 ≤ s + win))) :=
      rfl
    rw [hgen]
    unfold date_range
    rw [if_neg (by omega)]
  refine ⟨_, hprep, ?_, ?_, ?_, ?_⟩
  · simp only [List.length_map, List.length_range]
  · intro i hi
    have hi' : i ≤ ((((a :: rest).getLastD a).1 - a.1) / step).toNat := by
      simp only [List.length_map, List.length_range] at hi
      omega
    have hiq : (i : ℤ) ≤ (((a :: rest).getLastD a).1 - a.1) / step :=
      (Int.le_toNat hq0).mp hi'
    have h1 : step * (i : ℤ) ≤ step * ((((a :: rest).getLastD a).1 - a.1) / step) :=
      mul_le_mul_of_nonneg_left hiq (le_of_lt hstep)
    have h2 : (((a :: rest).getLastD a).1 - a.1) / step * step ≤
        ((a :: rest).getLastD a).1 - a.1 :=
      Int.ediv_mul_le _ (ne_of_gt hstep)
    have h3 := mul_comm step ((((a :: rest).getLastD a).1 - a.1) / step)
    omega
  · have h3 := Int.lt_ediv_add_one_mul_self (((a :: rest).getLastD a).1 - a.1) hstep
    have hcast : ((((((a :: rest).getLastD a).1 - a.1) / step).toNat + 1 : ℕ) : ℤ) =
        (((a :: rest).getLastD a).1 - a.1) / step + 1 := by
      push_cast [Int.toNat_of_nonneg hq0]
      ring
    simp only [List.length_map, List.length_range]
    rw [hcast]
    have h4 := mul_comm step ((((a :: rest).getLastD a).1 - a.1) / step + 1)
    omega
  · intro i hi r
    simp only [List.length_map, List.length_range] at hi
    have hwin : (((List.range (((((a :: rest).getLastD a).1 - a.1) / step).toNat + 1)).map
          (fun i : ℕ => a.1 + step * (i : Int))).map
        (fun s => (a :: rest).filter
          (fun r => decide (s ≤ r.1) && decide (r.1 ≤ s + win)))).getD i [] =
        (a :: rest).filter
          (fun r => decide (a.1 + step * i ≤ r.1) && decide (r.1 ≤ a.1 + step * i + win)) := by
      rw [List.getD_eq_getElem _ _ (by simpa using hi)]
      simp only [List.getElem_map, List.getElem_range]
    rw [hwin]
    simp [List.mem_filter, and_assoc]

/-- C3 witness: the slicer characterization applied to a concrete
three-beat sorted series with a 30 s step and 60 s window. -/
theorem window_slicer_starts_and_membership_witness :
    ∃ ws : List (List Row),
      prepare_windows_any_frequency_any_step
          (((0 : Int), (600 : Int)) :: [((60 : Int), (650 : Int)), (150, 700)]) 30 60 =
        some ws ∧
      ws.length = ((((((0 : Int), (600 : Int)) ::
        [((60 : Int), (650 : Int)), (150, 700)]).getLastD ((0 : Int), (600 : Int))).1 -
          (((0 : Int), (600 : Int)) : Row).1) / 30).toNat + 1 ∧
      (∀ i : Nat, i < ws.length → (((0 : Int), (600 : Int)) : Row).1 + 30 * i ≤
        (((((0 : Int), (600 : Int)) ::
          [((60 : Int), (650 : Int)), (150, 700)]).getLastD ((0 : Int), (600 : Int)))).1) ∧
      (((((0 : Int), (600 : Int)) ::
        [((60 : Int), (650 : Int)), (150, 700)]).getLastD ((0 : Int), (600 : Int))).1 <
          (((0 : Int), (600 : Int)) : Row).1 + 30 * ws.length) ∧
      (∀ i : Nat, i < ws.length → ∀ r : Row,
        r ∈ ws.getD i [] ↔
          r ∈ ((0 : Int), (600 : Int)) :: [((60 : Int), (650 : Int)), (150, 700)] ∧
            (((0 : Int), (600 : Int)) : Row).1 + 30 * i ≤ r.1 ∧
            r.1 ≤ (((0 : Int), (600 : Int)) : Row).1 + 30 * i + 60) :=
  window_slicer_starts_and_membership ((0 : Int), (600 : Int))
    [((60 : Int), (650 : Int)), (150, 700)] 30 60 (by decide) (by decide) (by decide)

/-- C6: the deduplicator removes window j exactly when windows j and j+1
are nonempty, share the same first timestamp and have the same element
count (so the later one is kept, and only immediately adjacent windows
are ever compared); its output is the original list restricted to the
unmarked positions, in order. -/
theorem window_dedup_removes_adjacent_duplicates (ws : List (List Row)) :
    (∀ j : Nat, duplMark ws j = true ↔
        ∃ p as p' bs, ws.getD j [] = p :: as ∧ ws.getD (j + 1) [] = p' :: bs ∧
          p.1 = p'.1 ∧ as.length = bs.length) ∧
      filter_windows_with_chunked_dataframe ws =
        ((List.range ws.length).filter (fun j => !(duplMark ws j))).map
          (fun j => ws.getD j []) := by
  constructor
  · intro j
    constructor
    · intro h
      unfold duplMark at h
      rcases h1 : ws.getD j [] with _ | ⟨p, as⟩ <;>
        rcases h2 : ws.getD (j + 1) [] with _ | ⟨p', bs⟩ <;>
          rw [h1, h2] at h <;> simp only [Bool.and_eq_true, decide_eq_true_eq] at h
      · cases h
      · cases h
      · cases h
      · exact ⟨p, as, p', bs, rfl, rfl, h.1, h.2⟩
    · rintro ⟨p, as, p', bs, h1, h2, h3, h4⟩
      unfold duplMark
      rw [h1, h2]
      simp [h3, h4]
  · exact enum_filter_map (fun i => !(duplMark ws i)) [] ws

lemma mdf_removed_iff (HRV : List (Option ℚ)) (ts : List ℚ) (method : String) (eps : ℚ)
    (i : Nat) (hi : i < HRV.length) (hlen : HRV.length = ts.length) :
    (i ∈ (if method = "pNN50" then ([] : List Nat)
        else (HRV.enum.filter (fun p => floatLtQ p.2 eps)).map Prod.fst) ∨
      i ∈ (ts.enum.filter (fun p => decide (p.2 = 0))).map Prod.fst) ↔
      mdfRemoved HRV ts method eps i = true := by
  have hti : i < ts.length := hlen ▸ hi
  have hH : i ∈ (HRV.enum.filter (fun p => floatLtQ p.2 eps)).map Prod.fst ↔
      floatLtQ (HRV.getD i none) eps = true := by
    rw [mem_enum_filter_map_fst]
    constructor
    · rintro ⟨x, hget, hp⟩
      rw [List.getElem?_eq_getElem hi] at hget
      have hx : x = HRV[i] := by
        injection hget with h
        exact h.symm
      rw [List.getD_eq_getElem _ _ hi, ← hx]
      exact hp
    · intro hp
      exact ⟨HRV[i], List.getElem?_eq_getElem hi,
        by rwa [List.getD_eq_getElem _ _ hi] at hp⟩
  have hT : i ∈ (ts.enum.filter (fun p => decide (p.2 = 0))).map Prod.fst ↔
      ts.getD i 0 = 0 := by
    rw [mem_enum_filter_map_fst]
    constructor
    · rintro ⟨x, hget, hp⟩
      rw [List.getElem?_eq_getElem hti] at hget
      have hx : x = ts[i] := by
        injection hget with h
        exact h.symm
      rw [List.getD_eq_getElem _ _ hti, ← hx]
      exact of_decide_eq_true hp
    · intro hp
      refine ⟨ts[i], List.getElem?_eq_getElem hti, decide_eq_true ?_⟩
      rwa [List.getD_eq_getElem _ _ hti] at hp
  unfold mdfRemoved
  by_cases hm : method = "pNN50"
  · simp [hm, hT]
  · simp [hm, hH, hT]

/-- C5: on equal-length parallel arrays, the filter returns the entries
at exactly the indices not removed by the claimed condition, taken from
both arrays in lockstep, and the outputs have equal length. -/
theorem missing_data_filter_characterization (HRV : List (Option ℚ)) (ts : List ℚ)
    (method : String) (hlen : HRV.length = ts.length) :
    (find_and_filter_missing_data HRV ts method (1 / 100000000)).1 =
      ((List.range HRV.length).filter
        (fun i => !(mdfRemoved HRV ts method (1 / 100000000) i))).map
        (fun i => HRV.getD i none) ∧
    (find_and_filter_missing_data HRV ts method (1 / 100000000)).2 =
      ((List.range HRV.length).filter
        (fun i => !(mdfRemoved HRV ts method (1 / 100000000) i))).map
        (fun i => ts.getD i 0) ∧
    (find_and_filter_missing_data HRV ts method (1 / 100000000)).1.length =
      (find_and_filter_missing_data HRV ts method (1 / 100000000)).2.length := by
  have hbool : ∀ i : Nat, i < HRV.length →
      (!(decide (i ∈ (if method = "pNN50" then ([] : List Nat)
          else (HRV.enum.filter
            (fun p => floatLtQ p.2 (1 / 100000000))).map Prod.fst) ∨
        i ∈ (ts.enum.filter (fun p => decide (p.2 = 0))).map Prod.fst))) =
        !(mdfRemoved HRV ts method (1 / 100000000) i) := by
    intro i hi
    have hiff := mdf_removed_iff HRV ts method (1 / 100000000) i hi hlen
    have hdec : (decide (i ∈ (if method = "pNN50" then ([] : List Nat)
          else (HRV.enum.filter
            (fun p => floatLtQ p.2 (1 / 100000000))).map Prod.fst) ∨
        i ∈ (ts.enum.filter (fun p => decide (p.2 = 0))).map Prod.fst)) =
          mdfRemoved HRV ts method (1 / 100000000) i := by
      have h6 : (decide (i ∈ (if method = "pNN50" then ([] : List Nat)
            else (HRV.enum.filter
              (fun p => floatLtQ p.2 (1 / 100000000))).map Prod.fst) ∨
          i ∈ (ts.enum.filter (fun p => decide (p.2 = 0))).map Prod.fst) = true) ↔
            mdfRemoved HRV ts method (1 / 100000000) i = true := by
        rw [decide_eq_true_eq]
        exact hiff
      exact Bool.coe_iff_coe.mp h6
    rw [hdec]
  have h1 : (find_and_filter_missing_data HRV ts method (1 / 100000000)).1 =
      ((List.range HRV.length).filter
        (fun i => !(mdfRemoved HRV ts method (1 / 100000000) i))).map
        (fun i => HRV.getD i none) := by
    show ((HRV.enum.filter _).map Prod.snd) = _
    rw [enum_filter_map (fun i => !(decide (i ∈ (if method = "pNN50" then ([] : List Nat)
          else (HRV.enum.filter
            (fun p => floatLtQ p.2 (1 / 100000000))).map Prod.fst) ∨
        i ∈ (ts.enum.filter (fun p => decide (p.2 = 0))).map Prod.fst))) none HRV]
    congr 1
    apply List.filter_congr
    intro i hmem
    exact hbool i (List.mem_range.mp hmem)
  have h2 : (find_and_filter_missing_data HRV ts method (1 / 100000000)).2 =
      ((List.range HRV.length).filter
        (fun i => !(mdfRemoved HRV ts method (1 / 100000000) i))).map
        (fun i => ts.getD i 0) := by
    show ((ts.enum.filter _).map Prod.snd) = _
    rw [enum_filter_map (fun i => !(decide (i ∈ (if method = "pNN50" then ([] : List Nat)
          else (HRV.enum.filter
            (fun p => floatLtQ p.2 (1 / 100000000))).map Prod.fst) ∨
        i ∈ (ts.enum.filter (fun p => decide (p.2 = 0))).map Prod.fst))) 0 ts, ← hlen]
    congr 1
    apply List.filter_congr
    intro i hmem
    exact hbool i (List.mem_range.mp hmem)
  refine ⟨h1, h2, ?_⟩
  rw [h1, h2]
  simp

/-- C5 witness: the characterization applied to concrete parallel arrays
holding a retained entry, a below-threshold value and an epoch sentinel. -/
theorem missing_data_filter_characterization_witness :
    (find_and_filter_missing_data [some 25, some 0, none] [1500, 900, 0] "SDNN"
        (1 / 100000000)).1 =
      ((List.range ([some (25 : ℚ), some 0, none] : List (Option ℚ)).length).filter
        (fun i => !(mdfRemoved [some 25, some 0, none] [1500, 900, 0] "SDNN"
          (1 / 100000000) i))).map
        (fun i => ([some (25 : ℚ), some 0, none] : List (Option ℚ)).getD i none) ∧
    (find_and_filter_missing_data [some 25, some 0, none] [1500, 900, 0] "SDNN"
        (1 / 100000000)).2 =
      ((List.range ([some (25 : ℚ), some 0, none] : List (Option ℚ)).length).filter
        (fun i => !(mdfRemoved [some 25, some 0, none] [1500, 900, 0] "SDNN"
          (1 / 100000000) i))).map
        (fun i => ([(1500 : ℚ), 900, 0] : List ℚ).getD i 0) ∧
    (find_and_filter_missing_data [some 25, some 0, none] [1500, 900, 0] "SDNN"
        (1 / 100000000)).1.length =
      (find_and_filter_missing_data [some 25, some 0, none] [1500, 900, 0] "SDNN"
        (1 / 100000000)).2.length :=
  missing_data_filter_characterization [some 25, some 0, none] [1500, 900, 0] "SDNN"
    (by decide)

lemma windowStep_small (method : String) (w : List Row) (hw : ¬ 1 < w.length) :
    windowStep method w = Except.ok (some 0, 0) := by
  unfold windowStep
  rw [if_neg hw]

/-- C10: a window of two beats whose values both exceed 2000 ms loses
every value to SDNN's outlier exclusion, so SDNN returns NaN (`none`);
NaN compares false against the 1e-8 threshold and the window's median
timestamp is not the epoch sentinel, so the missing-data filter keeps the
entry and NaN reaches the pipeline's final output. -/
theorem SDNN_nan_reaches_final_output :
    calculate_HRV_in_windows [((1000000000 : Int), (2500 : Int)), (2000000000, 2600)]
        1000000000 2000000000 "SDNN" =
      Except.ok ([none], [1500000000]) ∧
      none ∈ (Except.ok ([none], [(1500000000 : ℚ)]) :
        Except String (List (Option ℚ) × List ℚ)).toOption.elim [] Prod.fst := by
  have hps : prepare_windows_any_frequency_any_step
      [((1000000000 : Int), (2500 : Int)), (2000000000, 2600)] 1000000000 2000000000 =
      some [[((1000000000 : Int), (2500 : Int)), (2000000000, 2600)],
        [((2000000000 : Int), (2600 : Int))]] := by decide
  have hfw : filter_windows_with_chunked_dataframe
      [[((1000000000 : Int), (2500 : Int)), (2000000000, 2600)],
        [((2000000000 : Int), (2600 : Int))]] =
      [[((1000000000 : Int), (2500 : Int)), (2000000000, 2600)],
        [((2000000000 : Int), (2600 : Int))]] := by decide
  have hvar : SDNN_var [((1000000000 : Int), (2500 : Int)), (2000000000, 2600)] = none := by
    decide
  have hsort : List.insertionSort (· ≤ ·) [(1000000000 : Int), 2000000000] =
      [(1000000000 : Int), 2000000000] := by decide
  have hmed : medianTimestamp [(1000000000 : Int), 2000000000] = 1500000000 := by
    unfold medianTimestamp
    rw [hsort]
    norm_num
  have hstep0 : windowStep "SDNN" [((1000000000 : Int), (2500 : Int)), (2000000000, 2600)] =
      Except.ok (none, 1500000000) := by
    unfold windowStep
    rw [if_pos (by decide)]
    show Except.ok (SDNN_var [((1000000000 : Int), (2500 : Int)), (2000000000, 2600)],
      medianTimestamp [(1000000000 : Int), 2000000000]) = _
    rw [hvar, hmed]
  have hstep1 : windowStep "SDNN" [((2000000000 : Int), (2600 : Int))] =
      Except.ok (some 0, 0) :=
    windowStep_small _ _ (by decide)
  have hmapM : ([[((1000000000 : Int), (2500 : Int)), (2000000000, 2600)],
        [((2000000000 : Int), (2600 : Int))]] : List (List Row)).mapM (windowStep "SDNN") =
      Except.ok [((none : Option ℚ), (1500000000 : ℚ)), (some 0, 0)] := by
    rw [List.mapM_cons, hstep0, List.mapM_cons, hstep1, List.mapM_nil]
    rfl
  have hlt0 : floatLtQ (some 0) (1 / 10000000000000000) = true := by
    show decide ((0 : ℚ) < 1 / 10000000000000000) = true
    rw [decide_eq_true_eq]
    norm_num
  have hne : ((1500000000 : ℚ) = 0) = False := by norm_num
  have hf : find_and_filter_missing_data [none, some 0] [(1500000000 : ℚ), 0] "SDNN"
      (1 / 10000000000000000) = ([none], [1500000000]) := by
    unfold find_and_filter_missing_data
    simp [List.enum_cons, List.enumFrom, hlt0, floatLtQ, hne]
  constructor
  · unfold calculate_HRV_in_windows
    rw [hps]
    show ((filter_windows_with_chunked_dataframe
        [[((1000000000 : Int), (2500 : Int)), (2000000000, 2600)],
          [((2000000000 : Int), (2600 : Int))]]).mapM (windowStep "SDNN")).map
        (fun rs => find_and_filter_missing_data (rs.map Prod.fst) (rs.map Prod.snd) "SDNN"
          (1 / 10000000000000000)) = Except.ok ([none], [1500000000])
    rw [hfw, hmapM]
    show Except.ok (find_and_filter_missing_data [none, some 0] [(1500000000 : ℚ), 0] "SDNN"
      (1 / 10000000000000000)) = _
    rw [hf]
  · exact List.mem_singleton_self none

lemma considerAdj_mem (length : Int) (all acc : List Int) (adj x : Int) :
    x ∈ considerAdj length all acc adj ↔
      x ∈ acc ∨ (x = adj ∧ 0 ≤ adj ∧ adj < length ∧ adj ∉ all) := by
  unfold considerAdj
  split
  case isTrue h =>
    rw [List.mem_append, List.mem_singleton]
    constructor
    · rintro (hx | rfl)
      · exact Or.inl hx
      · exact Or.inr ⟨rfl, h.1, h.2.1, h.2.2.1⟩
    · rintro (hx | ⟨rfl, _, _, _⟩)
      · exact Or.inl hx
      · exact Or.inr rfl
  case isFalse h =>
    constructor
    · exact Or.inl
    · rintro (hx | ⟨rfl, h0, h1, h2⟩)
      · exact hx
      · by_cases hacc : x ∈ acc
        · exact hacc
        · exact absurd ⟨h0, h1, h2, hacc⟩ h

lemma considerAdj_nodup (length : Int) (all acc : List Int) (adj : Int)
    (h : acc.Nodup) : (considerAdj length all acc adj).Nodup := by
  unfold considerAdj
  split
  case isTrue hcond =>
    have hnot : adj ∉ acc := hcond.2.2.2
    simp [List.nodup_append, hnot, h]
  case isFalse _ => exact h

lemma addNeighbors_mem (length : Int) (all : List Int) :
    ∀ (rest acc : List Int) (x : Int),
      x ∈ addNeighbors length all rest acc ↔
        x ∈ acc ∨ ∃ j ∈ rest, (x = j - 1 ∨ x = j + 1) ∧ 0 ≤ x ∧ x < length ∧ x ∉ all
  | [], acc, x => by
      unfold addNeighbors
      simp
  | idx :: rest, acc, x => by
      rw [show addNeighbors length all (idx :: rest) acc =
          addNeighbors length all rest
            (considerAdj length all (considerAdj length all acc (idx - 1)) (idx + 1)) from
        rfl]
      rw [addNeighbors_mem length all rest _ x, considerAdj_mem, considerAdj_mem]
      constructor
      · rintro (((hacc | ⟨rfl, h0, h1, h2⟩) | ⟨rfl, h0, h1, h2⟩) | ⟨j, hj, hx, h0, h1, h2⟩)
        · exact Or.inl hacc
        · exact Or.inr ⟨idx, List.mem_cons_self idx rest, Or.inl rfl, h0, h1, h2⟩
        · exact Or.inr ⟨idx, List.mem_cons_self idx rest, Or.inr rfl, h0, h1, h2⟩
        · exact Or.inr ⟨j, List.mem_cons_of_mem idx hj, hx, h0, h1, h2⟩
      · rintro (hacc | ⟨j, hj, hx, h0, h1, h2⟩)
        · exact Or.inl (Or.inl (Or.inl hacc))
        · rcases List.mem_cons.mp hj with rfl | hj'
          · rcases hx with rfl | rfl
            · exact Or.inl (Or.inl (Or.inr ⟨rfl, h0, h1, h2⟩))
            · exact Or.inl (Or.inr ⟨rfl, h0, h1, h2⟩)
          · exact Or.inr ⟨j, hj', hx, h0, h1, h2⟩

lemma addNeighbors_nodup (length : Int) (all : List Int) :
    ∀ (rest acc : List Int), acc.Nodup → (addNeighbors length all rest acc).Nodup
  | [], _, h => h
  | idx :: rest, acc, h =>
      addNeighbors_nodup length all rest _
        (considerAdj_nodup length all _ (idx + 1)
          (considerAdj_nodup length all acc (idx - 1) h))

/-- C7: on distinct in-range indices the function returns the sorted,
duplicate-free list whose members are exactly the input indices together
with their in-range immediate neighbors; and on the example input
[0,3,5,27,28,99] with length 100 it returns
[0,1,2,3,4,5,6,26,27,28,29,98,99]. -/
theorem remove_preceding_following_beat_spec :
    (∀ (to_remove : List Int) (length : Int), to_remove.Nodup →
      (∀ i ∈ to_remove, 0 ≤ i ∧ i < length) →
      ∃ out : List Int, remove_preceding_and_following_beat to_remove length = some out ∧
        out.Sorted (· ≤ ·) ∧ out.Nodup ∧
        (∀ x : Int, x ∈ out ↔ x ∈ to_remove ∨
          ∃ j ∈ to_remove, (x = j - 1 ∨ x = j + 1) ∧ 0 ≤ x ∧ x < length)) ∧
    remove_preceding_and_following_beat [0, 3, 5, 27, 28, 99] 100 =
      some [0, 1, 2, 3, 4, 5, 6, 26, 27, 28, 29, 98, 99] := by
  constructor
  · intro to_remove length hnd hbound
    have hassert : to_remove.any (fun i => decide (length ≤ i)) = false := by
      simp only [List.any_eq_false, decide_eq_true_eq]
      intro i hi
      have := (hbound i hi).2
      omega
    have hout : remove_preceding_and_following_beat to_remove length =
        some (List.insertionSort (· ≤ ·)
          (to_remove ++ addNeighbors length to_remove to_remove [])) := by
      unfold remove_preceding_and_following_beat
      rw [if_neg (by simp [hassert])]
    refine ⟨_, hout, List.sorted_insertionSort _ _, ?_, ?_⟩
    · rw [(List.perm_insertionSort (· ≤ ·)
        (to_remove ++ addNeighbors length to_remove to_remove [])).nodup_iff]
      rw [List.nodup_append]
      refine ⟨hnd, addNeighbors_nodup length to_remove to_remove [] List.Pairwise.nil, ?_⟩
      intro a ha hb
      rcases (addNeighbors_mem length to_remove to_remove [] a).mp hb with
        h | ⟨_, _, _, _, _, hnall⟩
      · exact List.not_mem_nil a h
      · exact hnall ha
    · intro x
      rw [(List.perm_insertionSort (· ≤ ·)
        (to_remove ++ addNeighbors length to_remove to_remove [])).mem_iff]
      rw [List.mem_append, addNeighbors_mem]
      constructor
      · rintro (h | (h | ⟨j, hj, hx, h0, h1, _⟩))
        · exact Or.inl h
        · exact absurd h (List.not_mem_nil x)
        · exact Or.inr ⟨j, hj, hx, h0, h1⟩
      · rintro (h | ⟨j, hj, hx, h0, h1⟩)
        · exact Or.inl h
        · by_cases hmem : x ∈ to_remove
          · exact Or.inl hmem
          · exact Or.inr (Or.inr ⟨j, hj, hx, h0, h1, hmem⟩)
  · decide

/-- C7 witness: the general property applied at a concrete input. -/
theorem remove_preceding_following_beat_spec_witness :
    ∃ out : List Int, remove_preceding_and_following_beat [2, 5] 10 = some out ∧
      out.Sorted (· ≤ ·) ∧ out.Nodup ∧
      (∀ x : Int, x ∈ out ↔ x ∈ ([2, 5] : List Int) ∨
        ∃ j ∈ ([2, 5] : List Int), (x = j - 1 ∨ x = j + 1) ∧ 0 ≤ x ∧ x < 10) :=
  remove_preceding_following_beat_spec.1 [2, 5] 10 (by decide) (by decide)

lemma pairwise_ts_le_getLastD :
    ∀ (l : List RowQ) (a : RowQ), List.Pairwise (fun x y : RowQ => x.1 ≤ y.1) (a :: l) →
      ∀ c ∈ a :: l, c.1 ≤ ((a :: l).getLastD a).1
  | [], a, _, c, hc => by
      rcases List.mem_cons.mp hc with rfl | h
      · rw [List.getLastD_cons, List.getLastD_nil]
      · exact absurd h (List.not_mem_nil c)
  | b :: t, a, hp, c, hc => by
      have hp' : List.Pairwise (fun x y : RowQ => x.1 ≤ y.1) (b :: t) :=
        (List.pairwise_cons.mp hp).2
      have hlast_eq : ((a :: b :: t).getLastD a) = ((b :: t).getLastD b) := by
        rw [List.getLastD_cons, List.getLastD_cons, List.getLastD_cons]
      rcases List.mem_cons.mp hc with rfl | h
      · rw [hlast_eq, List.getLastD_cons]
        exact (List.pairwise_cons.mp hp).1 _ (List.getLastD_mem_cons t b)
      · rw [hlast_eq]
        exact pairwise_ts_le_getLastD t b hp' c h

lemma spline_in_bounds_ts_bounds (original : List RowQ) (c0 : RowQ) (rest : List RowQ)
    (t : Int) (ht : t ∈ spline_in_bounds_timestamps original (c0 :: rest)) :
    c0.1 ≤ t ∧ t ≤ ((c0 :: rest).getLastD c0).1 := by
  unfold spline_in_bounds_timestamps at ht
  have h2 := (List.mem_filter.mp ht).2
  simp only [Bool.not_eq_true', Bool.or_eq_false_iff, decide_eq_false_iff_not, not_lt] at h2
  exact ⟨h2.1, h2.2⟩

lemma spline_candidate_ts_mem (f : Int → ℚ) (roundPreds : Bool)
    (original current : List RowQ) (r : RowQ)
    (hr : r ∈ spline_candidate_rows f roundPreds original current) :
    r.1 ∈ spline_in_bounds_timestamps original current := by
  unfold spline_candidate_rows at hr
  rcases List.mem_map.mp hr with ⟨⟨a, b⟩, hq, hrEq⟩
  have ha : a ∈ original.filter
      (fun r => decide (r.1 ∈ spline_in_bounds_timestamps original current)) :=
    (List.of_mem_zip hq).1
  have h2 := (List.mem_filter.mp ha).2
  rw [← hrEq]
  exact of_decide_eq_true h2

/-- C8: whenever the interpolator succeeds, every row of the merged
output is either a surviving post-filter row or an unmodified candidate
reconstruction whose value lies within [min, max] of the surviving
values and whose timestamp lies within [min, max] of the surviving
timestamps (the first and last of the sorted surviving series, which
bound every surviving timestamp). -/
theorem spline_merge_bounds (f : Int → ℚ) (roundPreds : Bool) (original : List RowQ)
    (c0 : RowQ) (rest : List RowQ) (merged : List RowQ) (preds : List ℚ) (inB : List Int)
    (hsorted : List.Pairwise (fun x y : RowQ => x.1 ≤ y.1) (c0 :: rest))
    (heq : interpolate_data_with_splines f roundPreds original (c0 :: rest) =
      some (merged, preds, inB)) :
    (∀ c ∈ c0 :: rest, c0.1 ≤ c.1 ∧ c.1 ≤ ((c0 :: rest).getLastD c0).1) ∧
    ∀ r ∈ merged, r ∈ c0 :: rest ∨
      (r ∈ spline_candidate_rows f roundPreds original (c0 :: rest) ∧
        listMinQ ((c0 :: rest).map Prod.snd) ≤ r.2 ∧
        r.2 ≤ listMaxQ ((c0 :: rest).map Prod.snd) ∧
        c0.1 ≤ r.1 ∧ r.1 ≤ ((c0 :: rest).getLastD c0).1) := by
  constructor
  · intro c hc
    refine ⟨?_, pairwise_ts_le_getLastD rest c0 hsorted c hc⟩
    rcases List.mem_cons.mp hc with rfl | h
    · exact le_refl c.1
    · exact (List.pairwise_cons.mp hsorted).1 _ h
  · have hred : interpolate_data_with_splines f roundPreds original (c0 :: rest) =
        if ((spline_candidate_rows f roundPreds original (c0 :: rest)).filter
            (fun r => !(decide (r.2 < listMinQ ((c0 :: rest).map Prod.snd)) ||
              decide (r.2 > listMaxQ ((c0 :: rest).map Prod.snd))))).any
            (fun r => (c0 :: rest).any (fun c => decide (c.1 = r.1)))
        then none
        else
          some (List.insertionSort (fun a b : RowQ => a.1 ≤ b.1)
            (((spline_candidate_rows f roundPreds original (c0 :: rest)).filter
              (fun r => !(decide (r.2 < listMinQ ((c0 :: rest).map Prod.snd)) ||
                decide (r.2 > listMaxQ ((c0 :: rest).map Prod.snd))))) ++ (c0 :: rest)),
            spline_predictions f roundPreds original (c0 :: rest),
            spline_in_bounds_timestamps original (c0 :: rest)) := rfl
    rw [hred] at heq
    split at heq
    · exact absurd heq (by simp)
    · simp only [Option.some.injEq, Prod.mk.injEq] at heq
      obtain ⟨hm, _, _⟩ := heq
      subst hm
      intro r hr
      have hr2 : r ∈ ((spline_candidate_rows f roundPreds original (c0 :: rest)).filter
          (fun r => !(decide (r.2 < listMinQ ((c0 :: rest).map Prod.snd)) ||
            decide (r.2 > listMaxQ ((c0 :: rest).map Prod.snd))))) ++ (c0 :: rest) :=
        (List.perm_insertionSort (fun a b : RowQ => a.1 ≤ b.1) _).subset hr
      rcases List.mem_append.mp hr2 with hk | hc
      · right
        have hcand := (List.mem_filter.mp hk).1
        have hbnd := (List.mem_filter.mp hk).2
        simp only [Bool.not_eq_true', Bool.or_eq_false_iff, decide_eq_false_iff_not,
          not_lt] at hbnd
        have htsb := spline_in_bounds_ts_bounds original c0 rest r.1
          (spline_candidate_ts_mem f roundPreds original (c0 :: rest) r hcand)
        exact ⟨hcand, hbnd.1, hbnd.2, htsb.1, htsb.2⟩
      · exact Or.inl hc

/-- C8 witness: the bounds applied to a concrete reconstruction where the
beat at timestamp 5 was removed and is rebuilt from the prediction 12. -/
theorem spline_merge_bounds_witness :
    (∀ c ∈ [((0 : Int), (10 : ℚ)), (10, 20)], (((0 : Int), (10 : ℚ))).1 ≤ c.1 ∧
      c.1 ≤ (([((0 : Int), (10 : ℚ)), (10, 20)]).getLastD ((0 : Int), (10 : ℚ))).1) ∧
    ∀ r ∈ [((0 : Int), (10 : ℚ)), (5, 12), (10, 20)],
      r ∈ [((0 : Int), (10 : ℚ)), (10, 20)] ∨
      (r ∈ spline_candidate_rows (fun _ => 12) false
          [((0 : Int), (10 : ℚ)), (5, 15), (10, 20)] [((0 : Int), (10 : ℚ)), (10, 20)] ∧
        listMinQ (([((0 : Int), (10 : ℚ)), (10, 20)]).map Prod.snd) ≤ r.2 ∧
        r.2 ≤ listMaxQ (([((0 : Int), (10 : ℚ)), (10, 20)]).map Prod.snd) ∧
        (((0 : Int), (10 : ℚ))).1 ≤ r.1 ∧
        r.1 ≤ (([((0 : Int), (10 : ℚ)), (10, 20)]).getLastD ((0 : Int), (10 : ℚ))).1) :=
  spline_merge_bounds (fun _ => 12) false [((0 : Int), (10 : ℚ)), (5, 15), (10, 20)]
    ((0 : Int), (10 : ℚ)) [((10 : Int), (20 : ℚ))]
    [((0 : Int), (10 : ℚ)), (5, 12), (10, 20)] [12] [5] (by decide) (by decide)

lemma enumFrom_filter_map_sublist {α : Type _} (p : Nat → Bool) :
    ∀ (l : List α) (k : Nat),
      List.Sublist (((l.enumFrom k).filter (fun q => p q.1)).map Prod.snd) l
  | [], _ => by simp
  | a :: t, k => by
      rw [List.enumFrom_cons]
      by_cases hpk : p k
      · rw [List.filter_cons_of_pos (by simpa using hpk), List.map_cons]
        exact List.Sublist.cons₂ a (enumFrom_filter_map_sublist p t (k + 1))
      · rw [List.filter_cons_of_neg (by simpa using hpk)]
        exact List.Sublist.cons a (enumFrom_filter_map_sublist p t (k + 1))

lemma remove_negative_timestamps_sublist (l s : List Row)
    (hs : remove_negative_timestamps l = some s) : List.Sublist s l := by
  match l with
  | [] => exact absurd hs (by simp [remove_negative_timestamps])
  | a :: rest =>
      have hred : remove_negative_timestamps (a :: rest) =
          some (((a :: rest).enum.filter (fun q =>
            !(decide (q.1 ∈ expandNeighbors (a :: rest).length
              (negPositions ((a :: rest).map Prod.fst)))))).map Prod.snd) := rfl
      rw [hred] at hs
      rw [← Option.some.inj hs]
      exact enumFrom_filter_map_sublist
        (fun i => !(decide (i ∈ expandNeighbors (a :: rest).length
          (negPositions ((a :: rest).map Prod.fst))))) (a :: rest) 0

lemma remove_selected_time_ranges_sublist :
    ∀ (ranges : List (Int × Int)) (l : List Row),
      List.Sublist (remove_selected_time_ranges l ranges) l
  | [], l => List.Sublist.refl l
  | rg :: rs, l => by
      show List.Sublist (remove_selected_time_ranges
        (l.filter (fun r => !(decide (rg.1 ≤ r.1) && decide (r.1 ≤ rg.2)))) rs) l
      exact (remove_selected_time_ranges_sublist rs _).trans (List.filter_sublist l)

lemma remove_consecutive_beats_after_holes_sublist (l : List Row) (hole win : Int) :
    List.Sublist (remove_consecutive_beats_after_holes l hole win) l :=
  remove_selected_time_ranges_sublist _ l

lemma remove_adjacent_beats_sublist (l : List Row) (flagged : List Nat) (time : Int) :
    List.Sublist (remove_adjacent_beats l flagged time) l :=
  remove_selected_time_ranges_sublist _ l

lemma remove_first_and_last_indices_shrinks (l s : List Row) (c1 c2 : Int)
    (hc1 : 0 ≤ c1) (hs : remove_first_and_last_indices l c1 c2 = some s) :
    s.length < l.length := by
  match l with
  | [] => exact absurd hs (by simp [remove_first_and_last_indices])
  | a :: rest =>
      have hred : remove_first_and_last_indices (a :: rest) c1 c2 =
          some ((a :: rest).filter (fun r =>
            decide (a.1 + c1 < r.1) && decide (r.1 < ((a :: rest).getLastD a).1 - c2))) := rfl
      rw [hred] at hs
      rw [← Option.some.inj hs, List.filter_cons_of_neg (by simp; omega)]
      calc (rest.filter _).length ≤ rest.length := List.length_filter_le _ rest
    _ < (a :: rest).length := by simp

/-- C1 (amended): stages 1-4 never return their input unchanged
(`0 <= cut_time_from_start`): on the empty frame stage 1 raises at
`indices[0]` (modelled `none`), and on a nonempty frame the edge
trimming of stage 2 always removes at least the first surviving beat
while the other stages only ever remove rows, so the output is always
strictly shorter than the input.  In particular, whenever a first pass
yields a series y, a second pass on y never yields y again, whatever
indices the wavelet detector flags. -/
theorem preprocess_stages14_not_idempotent (A : List Row → List Nat)
    (c1 c2 hole wt adj : Int) (y : List Row) (hc1 : 0 ≤ c1) :
    preprocess_stages14 A c1 c2 hole wt adj y ≠ some y := by
  intro h
  unfold preprocess_stages14 at h
  rw [Option.bind_eq_some] at h
  obtain ⟨s1, h1, h⟩ := h
  rw [Option.bind_eq_some] at h
  obtain ⟨s2, h2, h⟩ := h
  by_cases h3 : remove_consecutive_beats_after_holes s2 hole wt = []
  · rw [if_pos h3] at h
    exact absurd h (by simp)
  · rw [if_neg h3] at h
    have hy : remove_adjacent_beats
        (remove_consecutive_beats_after_holes s2 hole wt)
        (A (remove_consecutive_beats_after_holes s2 hole wt)) adj = y :=
      Option.some.inj h
    have l1 : s1.length ≤ y.length :=
      (remove_negative_timestamps_sublist y s1 h1).length_le
    have l2 : s2.length < s1.length :=
      remove_first_and_last_indices_shrinks s1 s2 c1 c2 hc1 h2
    have l3 : y.length ≤ s2.length := by
      rw [← hy]
      exact le_trans (remove_adjacent_beats_sublist _ _ _).length_le
        (remove_consecutive_beats_after_holes_sublist s2 hole wt).length_le
    omega

/-- C1 counterexample: with a detector that flags the doubled positions
0, 2, 4, 6, 8 (what the DWT detector yields on a one-beat frame, where
the threshold sqrt(noise*log 1) vanishes and all five db5 detail
residues exceed it) and the 45/30/2/5/1 window parameters, the first
pass over a concrete five-beat series yields the empty series, and the
second pass raises on it at `indices[0]`: the Kleisli composition of two
passes differs from one pass. -/
theorem preprocess_stages14_twice_ne_once :
    Option.bind
        (preprocess_stages14 (fun _ => [0, 2, 4, 6, 8]) 45 30 2 5 1
          [((0 : Int), (600 : Int)), (50, 610), (100, 620), (150, 630), (250, 640)])
        (preprocess_stages14 (fun _ => [0, 2, 4, 6, 8]) 45 30 2 5 1) ≠
      preprocess_stages14 (fun _ => [0, 2, 4, 6, 8]) 45 30 2 5 1
        [((0 : Int), (600 : Int)), (50, 610), (100, 620), (150, 630), (250, 640)] := by
  decide

/-- C1 witness: the never-a-fixpoint theorem applied at a concrete
one-beat series. -/
theorem preprocess_stages14_not_idempotent_witness :
    preprocess_stages14 (fun _ => [0, 2, 4, 6, 8]) 45 30 2 5 1
        [((50 : Int), (610 : Int))] ≠
      some [((50 : Int), (610 : Int))] :=
  preprocess_stages14_not_idempotent (fun _ => [0, 2, 4, 6, 8]) 45 30 2 5 1
    [((50 : Int), (610 : Int))] (by decide)


end PolarHRV
